import Mathlib

/-!
# VoiceIDE — verification of the task-planning and orchestration core

Shallow embedding of the repository's two stateful cores:

* `planner/task_planner.py` — the `TaskPlanner` class: a store of `Task`
  records (`TaskStatus` state machine) keyed by string ids, with
  `create_task`, `update_task_status`, `plan_tasks`,
  `complete_current_task`, `clear_completed_tasks`.
* `main.py` — the `VoiceIDE` orchestrator: `task_queue` / `history` state
  with `process_next_task` (recursive queue drain), `save_state` /
  `load_state` (JSON file persistence), `get_status`.

Modelling conventions:

* Python's insertion-ordered `dict` of tasks is a `List Task` whose ids are
  kept unique by `dictInsert` (assignment to an existing key replaces the
  entry in place, a fresh key appends — exactly `dict.__setitem__`).
* Python `str` is `String`; `str.lower()` is the executable `strLower`
  (the commands in question are ASCII); the `in` substring test is the
  executable `strContains`.
* `json` (de)serialization is abstracted: the persisted medium holds the
  structured values themselves, with absent files and parse failures
  modelled explicitly (`Medium`).
* Wall-clock timestamps (`created_at`, `started_at`, `completed_at`,
  event `timestamp`) are not modelled — no claim depends on them.
* The body of `process_next_task`'s `try` block (the rich progress bar and
  `simulate_work`, which is where an exception can originate) is abstracted
  into a `backend` parameter returning `Except`: `.ok` is the success path,
  `.error msg` is any raised exception with message `msg`, matching the
  `except Exception as e` handler.
-/

namespace Planner

/-- The `TaskStatus` enum of `task_planner.py`. -/
inductive TaskStatus
  | pending
  | inProgress
  | completed
  | failed
deriving DecidableEq, Repr

/-- The `Task` dataclass of `task_planner.py`.  `result` is `Any` in the
source; it is modelled as an optional string.  `metadata` values are
modelled as string/string pairs (the one list-valued entry in the source
templates is encoded as a single pattern string). -/
structure Task where
  id : String
  description : String
  status : TaskStatus := TaskStatus.pending
  result : Option String := none
  error : Option String := none
  metadata : List (String × String) := []
deriving DecidableEq, Repr

/-- The `TaskPlanner` state: the insertion-ordered task dict (as a list)
and the current-task pointer. -/
structure TaskPlanner where
  tasks : List Task
  currentTaskId : Option String
deriving DecidableEq, Repr

/-- Assignment `self.tasks[task_id] = task` on a Python dict: replace in place when
the key is present, append otherwise. -/
def dictInsert (ts : List Task) (t : Task) : List Task :=
  if ts.any (fun u => decide (u.id = t.id)) then
    ts.map (fun u => if decide (u.id = t.id) then t else u)
  else
    ts ++ [t]

/-- Method `TaskPlanner.create_task`: allocate the id `task_` of `len(tasks)+1`, build a
Pending task and store it. -/
def TaskPlanner.createTask (p : TaskPlanner) (description : String)
    (metadata : List (String × String)) : Task × TaskPlanner :=
  let task_id := "task_" ++ toString (p.tasks.length + 1)
  let task : Task := { id := task_id, description := description, metadata := metadata }
  (task, { p with tasks := dictInsert p.tasks task })

/-- Method `TaskPlanner.get_task`: dict lookup by id. -/
def TaskPlanner.getTask (p : TaskPlanner) (task_id : String) : Option Task :=
  p.tasks.find? (fun t => decide (t.id = task_id))

/-- Method `TaskPlanner.update_task_status`: when the id is present, set
`status`, `result` and `error` to exactly the given arguments and return
`true`; otherwise log and return `false` with no mutation. -/
def TaskPlanner.updateTaskStatus (p : TaskPlanner) (task_id : String)
    (status : TaskStatus) (result : Option String) (error : Option String) :
    Bool × TaskPlanner :=
  if p.tasks.any (fun t => decide (t.id = task_id)) then
    (true, { p with tasks := p.tasks.map (fun t =>
      if decide (t.id = task_id) then { t with status := status, result := result, error := error } else t) })
  else
    (false, p)

/-- Python's substring test `needle in haystack` on char lists. -/
def containsSub (needle : List Char) : List Char → Bool
  | [] => decide (needle = [])
  | c :: rest => needle.isPrefixOf (c :: rest) || containsSub needle rest

/-- Python `needle in haystack` on strings. -/
def strContains (haystack needle : String) : Bool :=
  containsSub needle.data haystack.data

/-- Python `str.lower()`, character by character (the commands and
keywords involved are ASCII). -/
def strLower (s : String) : String :=
  ⟨s.data.map Char.toLower⟩

/-- Sequence of `create_task` calls, as `plan_tasks` performs for a
matched template: each call sees the store left by the previous one. -/
def TaskPlanner.createMany (p : TaskPlanner) :
    List (String × List (String × String)) → List Task × TaskPlanner
  | [] => ([], p)
  | (d, m) :: rest =>
    let r := p.createTask d m
    let rs := r.2.createMany rest
    (r.1 :: rs.1, rs.2)

/-- The five-step template of the "login ∧ (layout ∨ style)" rule in
`plan_tasks` (descriptions and metadata as in the source; the file-pattern
list is encoded as its single pattern string). -/
def loginTemplate : List (String × List (String × String)) :=
  [ ("Locate login page files",
     [("type", "file_discovery"), ("patterns", "*login*.\x7bjs,jsx,ts,tsx,html,css,scss\x7d")]),
    ("Analyze current layout structure",
     [("type", "code_analysis"), ("target", "login_component")]),
    ("Update CSS for modern styling",
     [("type", "code_modification"), ("target", "login_styles")]),
    ("Ensure responsive design",
     [("type", "code_modification"), ("target", "responsive_design")]),
    ("Test across different screen sizes",
     [("type", "testing"), ("target", "responsive_testing")]) ]

/-- The four-step template of the "api ∧ (add ∨ create)" rule in
`plan_tasks`. -/
def apiTemplate : List (String × List (String × String)) :=
  [ ("Identify API endpoint requirements",
     [("type", "analysis"), ("target", "api_requirements")]),
    ("Create API endpoint implementation",
     [("type", "code_creation"), ("target", "api_implementation")]),
    ("Add input validation",
     [("type", "code_modification"), ("target", "input_validation")]),
    ("Write unit tests",
     [("type", "testing"), ("target", "unit_tests")]) ]

/-- Method `TaskPlanner.plan_tasks`: lower-case the command (the source rebinds
`command`, so the lowered text also reaches the generic task's description
and metadata), match the two keyword rules in order, create the template's
tasks (or the single generic task), then mark the first created task as
current. -/
def TaskPlanner.planTasks (p : TaskPlanner) (command : String) :
    List Task × TaskPlanner :=
  let command := strLower command
  let r :=
    if strContains command "login" &&
        (strContains command "layout" || strContains command "style") then
      p.createMany loginTemplate
    else if strContains command "api" &&
        (strContains command "add" || strContains command "create") then
      p.createMany apiTemplate
    else
      p.createMany
        [("Process command: " ++ command, [("type", "general"), ("command", command)])]
  match r.1.head? with
  | some t => (r.1, { r.2 with currentTaskId := some t.id })
  | none => r

/-- The `for i, task in enumerate(task_list): if task.id == ...: break`
scan in `complete_current_task`: index of the first matching element. -/
def firstIdx (f : Task → Bool) : List Task → Option Nat
  | [] => none
  | t :: rest => if f t then some 0 else (firstIdx f rest).map (· + 1)

/-- Method `TaskPlanner.complete_current_task`: with no current task return
`None`; otherwise mark the current task Completed with the given result
(the source's `update_task_status` call leaves `error=None`), then scan
the tasks after the current one's position for the first Pending task,
make it current (or clear the pointer) and return it.  The source's
`current_idx = -1` sentinel (scan from the start when the id is absent) is
kept. -/
def TaskPlanner.completeCurrentTask (p : TaskPlanner) (result : Option String) :
    Option Task × TaskPlanner :=
  match p.currentTaskId with
  | none => (none, p)
  | some cid =>
    let p1 := (p.updateTaskStatus cid TaskStatus.completed result none).2
    let task_list := p1.tasks
    let current_idx : Int :=
      match firstIdx (fun t => decide (t.id = cid)) task_list with
      | some i => (i : Int)
      | none => -1
    let next_task :=
      (task_list.drop (current_idx + 1).toNat).find?
        (fun t => decide (t.status = TaskStatus.pending))
    (next_task, { p1 with currentTaskId := next_task.map (fun t => t.id) })

/-- Method `TaskPlanner.clear_completed_tasks`: collect the ids of Completed
tasks, then delete each, clearing the current pointer when it names a
deleted task. -/
def TaskPlanner.clearCompletedTasks (p : TaskPlanner) : TaskPlanner :=
  let completed_ids :=
    (p.tasks.filter (fun t => decide (t.status = TaskStatus.completed))).map (fun t => t.id)
  completed_ids.foldl
    (fun q tid =>
      { tasks := q.tasks.filter (fun t => !(decide (t.id = tid))),
        currentTaskId := if q.currentTaskId = some tid then none else q.currentTaskId })
    p

/-- The planner operations that drive the store without a raw
`update_task_status` call (those the orchestration layer itself uses). -/
inductive PlannerOp
  | create (description : String) (metadata : List (String × String))
  | plan (command : String)
  | complete (result : Option String)
  | clear

/-- Apply one planner operation. -/
def applyOp (p : TaskPlanner) : PlannerOp → TaskPlanner
  | PlannerOp.create d m => (p.createTask d m).2
  | PlannerOp.plan c => (p.planTasks c).2
  | PlannerOp.complete r => (p.completeCurrentTask r).2
  | PlannerOp.clear => p.clearCompletedTasks

/-- The empty planner (`TaskPlanner.__init__`). -/
def TaskPlanner.init : TaskPlanner := ⟨[], none⟩

/-- Run a sequence of planner operations from the empty planner. -/
def runOps (ops : List PlannerOp) : TaskPlanner :=
  List.foldl applyOp TaskPlanner.init ops

end Planner

namespace Orch

/-- A task record as built by `VoiceIDE.create_task` in `main.py`: a plain
dict with a string-valued status.  Wall-clock timestamps and the metadata
block are not modelled; `result` mirrors the success payload
`(message, changes)`. -/
structure Task where
  id : String
  description : String
  status : String := "pending"
  result : Option (String × List String) := none
  error : Option String := none
deriving DecidableEq, Repr

/-- A history entry (`etype` is the dict's `type` key): `command` is used
by `user_input` events, `task` by `task_completed` / `task_failed`,
`error` additionally by `task_failed`. -/
structure Event where
  etype : String
  task : Option Task := none
  error : Option String := none
  command : Option String := none
deriving DecidableEq, Repr

/-- The orchestrator state of `VoiceIDE.__init__`: `current_task`,
`task_queue`, `history`. -/
structure VoiceIDE where
  currentTask : Option Task := none
  taskQueue : List Task := []
  history : List Event := []
deriving DecidableEq, Repr

/-- Fresh state as `__init__` builds it. -/
def VoiceIDE.init : VoiceIDE := {}

/-- The persisted medium: the two JSON documents of `.voice_ide/`.
`none` is an absent file; `Except.error ()` a present but unparseable one
(`json.load` raises); `Except.ok v` one that parses to `v`. -/
structure Medium where
  tasksFile : Option (Except Unit (List Task)) := none
  historyFile : Option (Except Unit (List Event)) := none

/-- Method `VoiceIDE.save_state`: write the full queue, and the history truncated
to its last 100 entries (`self.history[-100:]`), overwriting the medium. -/
def VoiceIDE.saveState (s : VoiceIDE) : Medium :=
  { tasksFile := some (Except.ok s.taskQueue),
    historyFile := some (Except.ok (s.history.drop (s.history.length - 100))) }

/-- Method `VoiceIDE.load_state`: a single `try` block that first assigns the
queue from the tasks file when that file exists, then the history from
the history file when it exists; any failure is caught and only logged,
leaving whatever was already assigned in place. -/
def VoiceIDE.loadState (s : VoiceIDE) (m : Medium) : VoiceIDE :=
  match m.tasksFile with
  | some (Except.error _) => s
  | some (Except.ok q) =>
    let s1 := { s with taskQueue := q }
    match m.historyFile with
    | some (Except.ok h) => { s1 with history := h }
    | _ => s1
  | none =>
    match m.historyFile with
    | some (Except.ok h) => { s with history := h }
    | _ => s

/-- The fixed success payload assigned by `process_next_task`. -/
def successResult : String × List String :=
  ("Task completed successfully", ["Simulated changes"])

/-- Method `VoiceIDE.process_next_task`, recursing on the queue (the source's
`finally` re-invokes it until the queue is empty, which then clears
`current_task`).  `backend t` abstracts the body of the `try` block
(progress display plus the simulated work): `.ok` is the success path —
the source then assigns the fixed `successResult` payload — and
`.error e` is any raised exception with message `e`, handled by the
`except Exception` arm, which marks the task failed, records `error`,
appends a `task_failed` event and lets the drain continue. -/
def processNextTask (backend : Task → Except String Unit) :
    List Task → Option Task → List Event → VoiceIDE
  | [], _, hist => ⟨none, [], hist⟩
  | t :: rest, _, hist =>
    let t1 := { t with status := "in_progress" }
    match backend t1 with
    | Except.ok _ =>
      let t2 := { t1 with status := "completed", result := some successResult }
      processNextTask backend rest (some t2)
        (hist ++ [{ etype := "task_completed", task := some t2 }])
    | Except.error e =>
      let t2 := { t1 with status := "failed", error := some e }
      processNextTask backend rest (some t2)
        (hist ++ [{ etype := "task_failed", task := some t2, error := some e }])

/-- Method `VoiceIDE.get_status`. -/
def VoiceIDE.getStatus (s : VoiceIDE) : String :=
  match s.currentTask with
  | some t => "working on: " ++ t.description.take 20 ++ "..."
  | none =>
    if s.taskQueue ≠ [] then toString s.taskQueue.length ++ " tasks queued"
    else "ready"

end Orch

/-- Field discipline on a planner store: `error` is never populated and a
Pending or InProgress task carries no `result`.  This is the invariant the
driver-level operations (`PlannerOp`) maintain. -/
def fieldsInv (p : Planner.TaskPlanner) : Prop :=
  ∀ t ∈ p.tasks, t.error = none ∧
    ((t.status = Planner.TaskStatus.pending ∨ t.status = Planner.TaskStatus.inProgress) →
      t.result = none)

/-- The specified behaviour of `complete_current_task` when the current
task sits at position `i` of the store (positions are creation order):
that entry alone is rewritten to Completed with the given result, and the
returned/new-current task is the Pending task at the least position
strictly greater than `i`, or `none` (with the pointer cleared) when no
later Pending task exists. -/
def C2Prop (p : Planner.TaskPlanner) (r : Option String) (i : Nat) : Prop :=
  (∀ t, p.tasks[i]? = some t →
    (p.completeCurrentTask r).2.tasks[i]? =
      some { t with status := Planner.TaskStatus.completed, result := r, error := none }) ∧
  (∀ k, k ≠ i → (p.completeCurrentTask r).2.tasks[k]? = p.tasks[k]?) ∧
  (p.completeCurrentTask r).2.tasks.length = p.tasks.length ∧
  (match (p.completeCurrentTask r).1 with
   | some nt => ∃ j, i < j ∧ p.tasks[j]? = some nt ∧
       nt.status = Planner.TaskStatus.pending ∧
       (∀ k u, i < k → k < j → p.tasks[k]? = some u →
         u.status ≠ Planner.TaskStatus.pending) ∧
       (p.completeCurrentTask r).2.currentTaskId = some nt.id
   | none =>
       (∀ k u, i < k → p.tasks[k]? = some u →
         u.status ≠ Planner.TaskStatus.pending) ∧
       (p.completeCurrentTask r).2.currentTaskId = none)

/-- The specified failure behaviour of one `process_next_task` step on a
non-empty queue whose head the backend fails on: the history gains, right
at the old end, a `task_failed` event holding the head task marked
`failed` with its `error` set to the failure message; the drain then still
consumes every remaining task (one history event each) and empties the
queue. -/
def C5Prop (backend : Orch.Task → Except String Unit) (t : Orch.Task)
    (rest : List Orch.Task) (cur : Option Orch.Task) (hist : List Orch.Event)
    (e : String) : Prop :=
  (Orch.processNextTask backend (t :: rest) cur hist).history[hist.length]? =
    some { etype := "task_failed",
           task := some { t with status := "failed", error := some e },
           error := some e } ∧
  (Orch.processNextTask backend (t :: rest) cur hist).history.length =
    hist.length + 1 + rest.length ∧
  (Orch.processNextTask backend (t :: rest) cur hist).taskQueue = []

/-- Fixture: a two-task store whose first task is current (what
`plan_tasks` of an unrecognized command followed by one `create_task`
produces). -/
def pTwo : Planner.TaskPlanner :=
  ⟨[ { id := "task_1", description := "a" }, { id := "task_2", description := "b" } ],
   some "task_1"⟩

/-- Fixture: a backend that fails on task `t1` and succeeds elsewhere. -/
def failingBackend : Orch.Task → Except String Unit :=
  fun t => if t.id = "t1" then Except.error "boom" else Except.ok ()

/-- Fixture: the task the failing backend rejects. -/
def tFail : Orch.Task := { id := "t1", description := "first job" }

/-- Fixture: a queued task behind `tFail`. -/
def tNext : Orch.Task := { id := "t2", description := "second job" }

/-- Fixture: an orchestrator state holding 150 history events. -/
def sLong : Orch.VoiceIDE :=
  { history := List.replicate 150 { etype := "user_input", command := some "hi" } }

/-! ## Helper lemmas -/

/-- A sequence of creations starting from a non-empty template returns a
non-empty task list. -/
theorem createMany_fst_ne_nil (p : Planner.TaskPlanner) (d : String)
    (m : List (String × String)) (rest : List (String × List (String × String))) :
    (p.createMany ((d, m) :: rest)).1 ≠ [] := by
  simp [Planner.TaskPlanner.createMany]

/-- Looking a task up after the in-place rewrite `update_task_status`
performs: the first entry matching the id is the rewritten one, since the
rewrite changes no ids. -/
theorem find?_map_update (l : List Planner.Task) (tid : String)
    (st : Planner.TaskStatus) (r e : Option String) (t : Planner.Task)
    (h : l.find? (fun u => decide (u.id = tid)) = some t) :
    (l.map (fun u => if decide (u.id = tid) then
        { u with status := st, result := r, error := e } else u)).find?
      (fun u => decide (u.id = tid)) =
      some { t with status := st, result := r, error := e } := by
  induction l with
  | nil => simp at h
  | cons x xs ih =>
    by_cases hx : x.id = tid
    · rw [List.find?_cons_of_pos _ (by simp [hx])] at h
      injection h with h
      subst h
      rw [List.map_cons, List.find?_cons_of_pos _ (by simp [hx])]
      simp [hx]
    · rw [List.find?_cons_of_neg _ (by simp [hx])] at h
      rw [List.map_cons, List.find?_cons_of_neg _ (by simp [hx])]
      exact ih h

/-! ## Claims -/

/-- C10: `complete_current_task` called with no current task returns
`None` and performs no mutation: the planner state comes back unchanged,
so every task's status/result/error and the current pointer are intact. -/
theorem claim_C10 (p : Planner.TaskPlanner) (r : Option String)
    (h : p.currentTaskId = none) :
    p.completeCurrentTask r = (none, p) := by
  unfold Planner.TaskPlanner.completeCurrentTask
  rw [h]

/-- C10 witness: the empty planner has no current task and completing on
it is a no-op. -/
theorem claim_C10_witness :
    Planner.TaskPlanner.init.currentTaskId = none ∧
    Planner.TaskPlanner.init.completeCurrentTask (some "r") =
      (none, Planner.TaskPlanner.init) :=
  ⟨rfl, claim_C10 Planner.TaskPlanner.init (some "r") rfl⟩

/-- C1: `plan_tasks` always returns a non-empty list (first conjunct);
but id uniqueness over the store lifetime fails, contradicting
`create_task`'s own docstring ("Create a new task with a unique ID"):
create two tasks, complete and clear the first, and the next creation
computes `task_{len+1} = task_2`, the id the still-live second task
carries — two distinct tasks (different descriptions) get the same id and
the newer one silently replaces the older in the store. -/
theorem claim_C1 :
    (∀ (p : Planner.TaskPlanner) (command : String), (p.planTasks command).1 ≠ []) ∧
    (let a := Planner.TaskPlanner.init.createTask "first task" []
     let b := a.2.createTask "second task" []
     let p3 := (b.2.updateTaskStatus "task_1" Planner.TaskStatus.completed none none).2
     let p4 := p3.clearCompletedTasks
     let c := p4.createTask "third task" []
     b.1.id = "task_2" ∧ c.1.id = "task_2" ∧ b.1.description ≠ c.1.description ∧
     p4.getTask "task_2" = some b.1 ∧ c.2.getTask "task_2" = some c.1 ∧
     c.2.tasks.length = 1) := by
  constructor
  · intro p command
    simp only [Planner.TaskPlanner.planTasks]
    by_cases h1 : (Planner.strContains (Planner.strLower command) "login" &&
        (Planner.strContains (Planner.strLower command) "layout" ||
          Planner.strContains (Planner.strLower command) "style")) = true
    · rw [if_pos h1]
      cases hcm : (p.createMany Planner.loginTemplate).1 with
      | nil => exact absurd hcm (createMany_fst_ne_nil p _ _ _)
      | cons x xs => simp
    · rw [if_neg h1]
      by_cases h2 : (Planner.strContains (Planner.strLower command) "api" &&
          (Planner.strContains (Planner.strLower command) "add" ||
            Planner.strContains (Planner.strLower command) "create")) = true
      · rw [if_pos h2]
        cases hcm : (p.createMany Planner.apiTemplate).1 with
        | nil => exact absurd hcm (createMany_fst_ne_nil p _ _ _)
        | cons x xs => simp
      · rw [if_neg h2]
        cases hcm : (p.createMany
            [("Process command: " ++ Planner.strLower command,
              [("type", "general"), ("command", Planner.strLower command)])]).1 with
        | nil => exact absurd hcm (createMany_fst_ne_nil p _ _ _)
        | cons x xs => simp
  · decide

/-- C3 counterexample: the status state machine is not one-directional —
a single `update_task_status` call moves a Completed task straight back
to Pending, so a task whose status left Pending becomes Pending again and
a terminal status changes again. -/
theorem claim_C3_counterexample :
    (let p1 := (Planner.TaskPlanner.init.createTask "a" []).2
     let p2 := (p1.updateTaskStatus "task_1" Planner.TaskStatus.completed (some "r") none).2
     let p3 := (p2.updateTaskStatus "task_1" Planner.TaskStatus.pending none none).2
     (p2.getTask "task_1").map Planner.Task.status = some Planner.TaskStatus.completed ∧
     (p3.getTask "task_1").map Planner.Task.status = some Planner.TaskStatus.pending) := by
  decide

/-- C3 (amended): `update_task_status` applies no transition guard at all:
whenever the task exists it overwrites `status`, `result` and `error` with
exactly the given arguments and reports success — so arbitrary arguments
can move a task backward (including out of Completed/Failed and back to
Pending), and one-directionality is not an invariant the store enforces. -/
theorem claim_C3 (p : Planner.TaskPlanner) (tid : String)
    (st : Planner.TaskStatus) (r e : Option String) (t : Planner.Task)
    (h : p.getTask tid = some t) :
    (p.updateTaskStatus tid st r e).1 = true ∧
    (p.updateTaskStatus tid st r e).2.getTask tid =
      some { t with status := st, result := r, error := e } := by
  have h' : p.tasks.find? (fun u => decide (u.id = tid)) = some t := h
  have hmem : t ∈ p.tasks := List.mem_of_find?_eq_some h'
  have hf := List.find?_some h'
  have hany : p.tasks.any (fun u => decide (u.id = tid)) = true :=
    List.any_eq_true.2 ⟨t, hmem, hf⟩
  unfold Planner.TaskPlanner.updateTaskStatus
  rw [if_pos hany]
  exact ⟨rfl, find?_map_update p.tasks tid st r e t h'⟩

/-- C3 witness: a freshly created task is found, and updating it to
Failed with an error message rewrites exactly those fields. -/
theorem claim_C3_witness :
    ((Planner.TaskPlanner.init.createTask "demo" []).2.getTask "task_1" =
      some ({ id := "task_1", description := "demo" } : Planner.Task)) ∧
    (((Planner.TaskPlanner.init.createTask "demo" []).2.updateTaskStatus "task_1"
        Planner.TaskStatus.failed none (some "x")).1 = true ∧
      ((Planner.TaskPlanner.init.createTask "demo" []).2.updateTaskStatus "task_1"
        Planner.TaskStatus.failed none (some "x")).2.getTask "task_1" =
        some { id := "task_1", description := "demo",
               status := Planner.TaskStatus.failed, result := none,
               error := some "x" }) :=
  ⟨by decide,
   claim_C3 (Planner.TaskPlanner.init.createTask "demo" []).2 "task_1"
     Planner.TaskStatus.failed none (some "x")
     ({ id := "task_1", description := "demo" } : Planner.Task) (by decide)⟩

/-- C8 counterexample: `result` and `error` are not mutually exclusive and
not absent while Pending — one `update_task_status` call leaves a Pending
task carrying both a result and an error. -/
theorem claim_C8_counterexample :
    (let p1 := (Planner.TaskPlanner.init.createTask "demo" []).2
     let p2 := (p1.updateTaskStatus "task_1" Planner.TaskStatus.pending
       (some "payload") (some "boom")).2
     (p2.getTask "task_1").map Planner.Task.status = some Planner.TaskStatus.pending ∧
     (p2.getTask "task_1").map Planner.Task.result = some (some "payload") ∧
     (p2.getTask "task_1").map Planner.Task.error = some (some "boom")) := by
  decide

/-- C6 counterexample: for the unmatched command "Rename The Project" the
planner returns one generic task, but its description wraps the lowercased
command, not the raw text verbatim — the raw command occurs nowhere in the
stored description. -/
theorem claim_C6_counterexample :
    (let r := Planner.TaskPlanner.init.planTasks "Rename The Project"
     r.1.length = 1 ∧
     r.1.map Planner.Task.description = ["Process command: rename the project"] ∧
     r.1.map (fun t => Planner.strContains t.description "Rename The Project") =
       [false]) := by
  decide

/-- C6 (amended): for every command matching neither decomposition rule,
`plan_tasks` returns exactly one generic task — but its description (and
`metadata.command`) wrap the case-normalized (lowercased) command, because
the source lowercases the command in place before building the task. -/
theorem claim_C6 (p : Planner.TaskPlanner) (command : String)
    (h1 : (Planner.strContains (Planner.strLower command) "login" &&
      (Planner.strContains (Planner.strLower command) "layout" ||
        Planner.strContains (Planner.strLower command) "style")) = false)
    (h2 : (Planner.strContains (Planner.strLower command) "api" &&
      (Planner.strContains (Planner.strLower command) "add" ||
        Planner.strContains (Planner.strLower command) "create")) = false) :
    (p.planTasks command).1 =
      [{ id := "task_" ++ toString (p.tasks.length + 1),
         description := "Process command: " ++ Planner.strLower command,
         status := Planner.TaskStatus.pending, result := none, error := none,
         metadata := [("type", "general"), ("command", Planner.strLower command)] }] := by
  simp only [Planner.TaskPlanner.planTasks]
  rw [if_neg (by simp [h1]), if_neg (by simp [h2])]
  simp [Planner.TaskPlanner.createMany, Planner.TaskPlanner.createTask]

/-- C6 witness: the unrecognized command "Rename The Project" matches
neither rule and yields the single generic task over the lowercased
text. -/
theorem claim_C6_witness :
    ((Planner.strContains (Planner.strLower "Rename The Project") "login" &&
      (Planner.strContains (Planner.strLower "Rename The Project") "layout" ||
        Planner.strContains (Planner.strLower "Rename The Project") "style")) = false) ∧
    ((Planner.strContains (Planner.strLower "Rename The Project") "api" &&
      (Planner.strContains (Planner.strLower "Rename The Project") "add" ||
        Planner.strContains (Planner.strLower "Rename The Project") "create")) = false) ∧
    (Planner.TaskPlanner.init.planTasks "Rename The Project").1 =
      [{ id := "task_1",
         description := "Process command: rename the project",
         status := Planner.TaskStatus.pending, result := none, error := none,
         metadata := [("type", "general"),
                      ("command", "rename the project")] }] := by
  refine ⟨by decide, by decide, ?_⟩
  have h := claim_C6 Planner.TaskPlanner.init "Rename The Project"
    (by decide) (by decide)
  simpa using h

/-- C9 counterexample: with no active task and an empty queue,
`get_status` returns "ready", not the claimed "idle". -/
theorem claim_C9_counterexample :
    Orch.VoiceIDE.init.getStatus = "ready" ∧
    Orch.VoiceIDE.init.getStatus ≠ "idle" := by
  decide

/-- C9 (amended): `get_status` is a pure derivation of the state (it is a
function of the state record alone) returning exactly one of three forms —
"ready" (not "idle") when no task is active and the queue is empty,
"N tasks queued" when tasks are queued with none active, and
"working on: " plus the first 20 characters of the description plus "..."
when a task is active. -/
theorem claim_C9 (s : Orch.VoiceIDE) :
    (s.currentTask = none → s.taskQueue = [] → s.getStatus = "ready") ∧
    (s.currentTask = none → s.taskQueue ≠ [] →
      s.getStatus = toString s.taskQueue.length ++ " tasks queued") ∧
    (∀ t, s.currentTask = some t →
      s.getStatus = "working on: " ++ t.description.take 20 ++ "...") := by
  unfold Orch.VoiceIDE.getStatus
  refine ⟨?_, ?_, ?_⟩
  · intro hc hq
    rw [hc, hq]
    simp
  · intro hc hq
    rw [hc]
    simp [hq]
  · intro t hc
    rw [hc]

/-- C9 witness: the three branches at concrete states. -/
theorem claim_C9_witness :
    Orch.VoiceIDE.init.getStatus = "ready" ∧
    (Orch.VoiceIDE.mk none [tNext] []).getStatus = "1 tasks queued" ∧
    (Orch.VoiceIDE.mk (some tFail) [] []).getStatus =
      "working on: first job..." := by
  refine ⟨(claim_C9 Orch.VoiceIDE.init).1 rfl rfl, ?_, ?_⟩
  · have h := (claim_C9 (Orch.VoiceIDE.mk none [tNext] [])).2.1 rfl (by decide)
    simpa using h
  · have h := (claim_C9 (Orch.VoiceIDE.mk (some tFail) [] [])).2.2 tFail rfl
    simpa [tFail] using h

/-- C7 counterexample: a valid tasks document together with a malformed
history document loads the queue but leaves the history empty — a mix of
loaded and empty state, contradicting "both empty, never a mix". -/
theorem claim_C7_counterexample :
    (let demo : Orch.Task := { id := "t1", description := "loaded task" }
     let m : Orch.Medium :=
       { tasksFile := some (Except.ok [demo]), historyFile := some (Except.error ()) }
     (Orch.VoiceIDE.init.loadState m).taskQueue = [demo] ∧
     (Orch.VoiceIDE.init.loadState m).taskQueue ≠ [] ∧
     (Orch.VoiceIDE.init.loadState m).history = []) := by
  refine ⟨rfl, by decide, rfl⟩

/-- C7 (amended): started from the fresh state, `load_state` never aborts
and behaves case by case as follows: an absent or malformed tasks document
leaves the queue empty, and a malformed tasks document also leaves the
history empty (the exception skips the history read); the history loads
exactly when its own document is present and well-formed *and* the tasks
document did not fail to parse.  A malformed history document does not
roll back an already-loaded queue, so "both empty" holds only when the
tasks document itself is absent or malformed and the history document is
absent, malformed, or unread. -/
theorem claim_C7 (tf : Option (Except Unit (List Orch.Task)))
    (hf : Option (Except Unit (List Orch.Event))) :
    (Orch.VoiceIDE.init.loadState ⟨tf, hf⟩).currentTask = none ∧
    (Orch.VoiceIDE.init.loadState ⟨tf, hf⟩).taskQueue =
      (match tf with
       | some (Except.ok q) => q
       | _ => []) ∧
    (Orch.VoiceIDE.init.loadState ⟨tf, hf⟩).history =
      (match tf, hf with
       | some (Except.error _), _ => []
       | _, some (Except.ok h) => h
       | _, _ => []) := by
  rcases tf with _ | (_ | q) <;> rcases hf with _ | (_ | h) <;>
    exact ⟨rfl, rfl, rfl⟩

/-! ## Queue-drain lemma for the orchestrator loop -/

/-- Lemma: `process_next_task` fully drains the queue: the final queue is empty
and the history is the old history extended by exactly one event per
queued task. -/
theorem processNextTask_drain (backend : Orch.Task → Except String Unit) :
    ∀ (q : List Orch.Task) (cur : Option Orch.Task) (hist : List Orch.Event),
      (Orch.processNextTask backend q cur hist).taskQueue = [] ∧
      ∃ tail, (Orch.processNextTask backend q cur hist).history = hist ++ tail ∧
        tail.length = q.length := by
  intro q
  induction q with
  | nil =>
    intro cur hist
    exact ⟨rfl, [], by simp [Orch.processNextTask], rfl⟩
  | cons t rest ih =>
    intro cur hist
    simp only [Orch.processNextTask]
    cases hb : backend { t with status := "in_progress" } with
    | ok u =>
      obtain ⟨h1, tail, h2, h3⟩ := ih (some { t with status := "completed", result := some Orch.successResult }) (hist ++ [{ etype := "task_completed", task := some { t with status := "completed", result := some Orch.successResult } }])
      refine ⟨h1, { etype := "task_completed", task := some { t with status := "completed", result := some Orch.successResult } } :: tail, ?_, ?_⟩
      · rw [h2]; simp
      · simp [h3]
    | error e =>
      obtain ⟨h1, tail, h2, h3⟩ := ih (some { t with status := "failed", error := some e }) (hist ++ [{ etype := "task_failed", task := some { t with status := "failed", error := some e }, error := some e }])
      refine ⟨h1, { etype := "task_failed", task := some { t with status := "failed", error := some e }, error := some e } :: tail, ?_, ?_⟩
      · rw [h2]; simp
      · simp [h3]

/-- C4: `save_state` followed by `load_state` (into the fresh startup
state) reproduces the in-memory state field-for-field: the loaded queue
equals the saved queue; the loaded history is a suffix of the saved
history — the most recent `min 100 length` entries, i.e. all but the
oldest `length - 100`; with 150 events exactly the most recent 100
survive; and eviction is applied only at save time — the drain loop only
ever appends to the in-memory history without truncating it. -/
theorem claim_C4 (s : Orch.VoiceIDE) :
    (Orch.VoiceIDE.init.loadState s.saveState).taskQueue = s.taskQueue ∧
    (Orch.VoiceIDE.init.loadState s.saveState).history =
      s.history.drop (s.history.length - 100) ∧
    (∃ old, s.history = old ++ (Orch.VoiceIDE.init.loadState s.saveState).history) ∧
    (Orch.VoiceIDE.init.loadState s.saveState).history.length =
      min 100 s.history.length ∧
    (s.history.length = 150 →
      (Orch.VoiceIDE.init.loadState s.saveState).history = s.history.drop 50 ∧
      (Orch.VoiceIDE.init.loadState s.saveState).history.length = 100) ∧
    (∀ backend q c h, ∃ tail,
      (Orch.processNextTask backend q c h).history = h ++ tail) := by
  have hhist : (Orch.VoiceIDE.init.loadState s.saveState).history =
      s.history.drop (s.history.length - 100) := rfl
  refine ⟨rfl, hhist, ⟨s.history.take (s.history.length - 100), ?_⟩, ?_, ?_, ?_⟩
  · rw [hhist]
    exact (List.take_append_drop _ _).symm
  · rw [hhist, List.length_drop]
    omega
  · intro h150
    refine ⟨?_, ?_⟩
    · rw [hhist, h150]
    · rw [hhist, List.length_drop, h150]
  · intro backend q c h
    obtain ⟨-, tail, h2, -⟩ := processNextTask_drain backend q c h
    exact ⟨tail, h2⟩

/-- C4 witness: a state with 150 history events round-trips to exactly the
most recent 100 (all but the oldest 50). -/
theorem claim_C4_witness :
    sLong.history.length = 150 ∧
    (Orch.VoiceIDE.init.loadState sLong.saveState).history =
      sLong.history.drop 50 := by
  have h : sLong.history.length = 150 := by simp [sLong]
  exact ⟨h, ((claim_C4 sLong).2.2.2.2.1 h).1⟩

/-- C5: when the backend fails on the head task of the queue, the drain
step records a "task_failed" history event carrying that task marked
`failed` with `error` set to the failure message, and the loop does not
abort: every remaining queued task is still consumed (one history event
each) and the queue drains to empty. -/
theorem claim_C5 (backend : Orch.Task → Except String Unit) (t : Orch.Task)
    (rest : List Orch.Task) (cur : Option Orch.Task) (hist : List Orch.Event)
    (e : String)
    (hfail : backend { t with status := "in_progress" } = Except.error e) :
    C5Prop backend t rest cur hist e := by
  unfold C5Prop
  have hstep : Orch.processNextTask backend (t :: rest) cur hist =
      Orch.processNextTask backend rest (some { t with status := "failed", error := some e }) (hist ++ [{ etype := "task_failed", task := some { t with status := "failed", error := some e }, error := some e }]) := by
    simp only [Orch.processNextTask]
    rw [hfail]
  rw [hstep]
  obtain ⟨h1, tail, h2, h3⟩ := processNextTask_drain backend rest (some { t with status := "failed", error := some e }) (hist ++ [{ etype := "task_failed", task := some { t with status := "failed", error := some e }, error := some e }])
  refine ⟨?_, ?_, h1⟩
  · rw [h2, List.append_assoc, List.getElem?_append_right (le_refl hist.length)]
    simp
  · rw [h2]
    simp [h3]
    omega

/-- C5 witness: a backend failing on the first of two queued tasks — the
failure event is recorded at the end of the history and the second task is
still processed. -/
theorem claim_C5_witness :
    failingBackend { tFail with status := "in_progress" } = Except.error "boom" ∧
    C5Prop failingBackend tFail [tNext] none [] "boom" :=
  ⟨rfl, claim_C5 failingBackend tFail [tNext] none [] "boom" rfl⟩

/-! ## Field-discipline invariant for driver-level operation sequences -/

/-- Membership after a dict insertion: an element of the updated store is
an old element or the inserted task. -/
theorem mem_dictInsert (ts : List Planner.Task) (t u : Planner.Task)
    (h : u ∈ Planner.dictInsert ts t) : u ∈ ts ∨ u = t := by
  unfold Planner.dictInsert at h
  split at h
  · obtain ⟨v, hv, hvu⟩ := List.mem_map.1 h
    by_cases hid : v.id = t.id
    · right
      rw [← hvu]
      simp [hid]
    · left
      rw [← hvu]
      simpa [hid] using hv
  · rcases List.mem_append.1 h with h | h
    · exact Or.inl h
    · exact Or.inr (by simpa using h)

/-- Lemma: `create_task` preserves the field discipline: the new task is Pending
with `result` and `error` absent. -/
theorem fieldsInv_createTask (p : Planner.TaskPlanner) (d : String)
    (m : List (String × String)) (hp : fieldsInv p) :
    fieldsInv (p.createTask d m).2 := by
  intro u hu
  rcases mem_dictInsert p.tasks _ u hu with h | h
  · exact hp u h
  · subst h
    exact ⟨rfl, fun _ => rfl⟩

/-- A template-driven creation sequence preserves the field discipline. -/
theorem fieldsInv_createMany (tl : List (String × List (String × String))) :
    ∀ (p : Planner.TaskPlanner), fieldsInv p → fieldsInv (p.createMany tl).2 := by
  induction tl with
  | nil => intro p hp; exact hp
  | cons x rest ih =>
    intro p hp
    obtain ⟨d, m⟩ := x
    exact ih _ (fieldsInv_createTask p d m hp)

/-- Lemma: `plan_tasks` preserves the field discipline (it only creates tasks and
moves the current pointer). -/
theorem fieldsInv_planTasks (p : Planner.TaskPlanner) (c : String)
    (hp : fieldsInv p) : fieldsInv (p.planTasks c).2 := by
  simp only [Planner.TaskPlanner.planTasks]
  by_cases h1 : (Planner.strContains (Planner.strLower c) "login" &&
      (Planner.strContains (Planner.strLower c) "layout" ||
        Planner.strContains (Planner.strLower c) "style")) = true
  · rw [if_pos h1]
    cases hcm : (p.createMany Planner.loginTemplate).1 with
    | nil => exact fieldsInv_createMany _ p hp
    | cons x xs => exact fieldsInv_createMany _ p hp
  · rw [if_neg h1]
    by_cases h2 : (Planner.strContains (Planner.strLower c) "api" &&
        (Planner.strContains (Planner.strLower c) "add" ||
          Planner.strContains (Planner.strLower c) "create")) = true
    · rw [if_pos h2]
      cases hcm : (p.createMany Planner.apiTemplate).1 with
      | nil => exact fieldsInv_createMany _ p hp
      | cons x xs => exact fieldsInv_createMany _ p hp
    · rw [if_neg h2]
      cases hcm : (p.createMany
          [("Process command: " ++ Planner.strLower c,
            [("type", "general"), ("command", Planner.strLower c)])]).1 with
      | nil => exact fieldsInv_createMany _ p hp
      | cons x xs => exact fieldsInv_createMany _ p hp

/-- The Completed rewrite `complete_current_task` issues preserves the
field discipline: it clears `error` and leaves no Pending/InProgress task
with a result. -/
theorem fieldsInv_update_completed (p : Planner.TaskPlanner) (cid : String)
    (r : Option String) (hp : fieldsInv p) :
    fieldsInv (p.updateTaskStatus cid Planner.TaskStatus.completed r none).2 := by
  unfold Planner.TaskPlanner.updateTaskStatus
  split
  · intro u hu
    obtain ⟨v, hv, hvu⟩ := List.mem_map.1 hu
    by_cases hid : v.id = cid
    · rw [← hvu]
      rw [if_pos (by simp [hid])]
      exact ⟨rfl, fun hcon => by rcases hcon with h | h <;> simp at h⟩
    · rw [← hvu]
      rw [if_neg (by simp [hid])]
      exact hp v hv
  · exact hp

/-- Lemma: `complete_current_task` preserves the field discipline. -/
theorem fieldsInv_complete (p : Planner.TaskPlanner) (r : Option String)
    (hp : fieldsInv p) : fieldsInv (p.completeCurrentTask r).2 := by
  unfold Planner.TaskPlanner.completeCurrentTask
  cases hcur : p.currentTaskId with
  | none => exact hp
  | some cid =>
    intro u hu
    exact fieldsInv_update_completed p cid r hp u hu

/-- The deletion loop of `clear_completed_tasks` preserves the field
discipline: it only filters the store. -/
theorem fieldsInv_clear_aux (ids : List String) :
    ∀ (q : Planner.TaskPlanner), fieldsInv q →
      fieldsInv (ids.foldl (fun q tid =>
        { tasks := q.tasks.filter (fun t => !(decide (t.id = tid))),
          currentTaskId := if q.currentTaskId = some tid then none else q.currentTaskId }) q) := by
  induction ids with
  | nil => intro q hq; exact hq
  | cons i rest ih =>
    intro q hq
    refine ih _ ?_
    intro u hu
    exact hq u (List.mem_of_mem_filter hu)

/-- Lemma: `clear_completed_tasks` preserves the field discipline. -/
theorem fieldsInv_clear (p : Planner.TaskPlanner) (hp : fieldsInv p) :
    fieldsInv p.clearCompletedTasks := by
  unfold Planner.TaskPlanner.clearCompletedTasks
  exact fieldsInv_clear_aux _ p hp

/-- Every driver-level operation preserves the field discipline. -/
theorem fieldsInv_applyOp (p : Planner.TaskPlanner) (op : Planner.PlannerOp)
    (hp : fieldsInv p) : fieldsInv (Planner.applyOp p op) := by
  cases op with
  | create d m => exact fieldsInv_createTask p d m hp
  | plan c => exact fieldsInv_planTasks p c hp
  | complete r => exact fieldsInv_complete p r hp
  | clear => exact fieldsInv_clear p hp

/-- Every store reachable by driver-level operations satisfies the field
discipline. -/
theorem fieldsInv_runOps (ops : List Planner.PlannerOp) :
    fieldsInv (Planner.runOps ops) := by
  have key : ∀ (l : List Planner.PlannerOp) (p : Planner.TaskPlanner), fieldsInv p →
      fieldsInv (List.foldl Planner.applyOp p l) := by
    intro l
    induction l with
    | nil => intro p hp; exact hp
    | cons op rest ih =>
      intro p hp
      exact ih _ (fieldsInv_applyOp p op hp)
  refine key ops Planner.TaskPlanner.init ?_
  intro u hu
  simp [Planner.TaskPlanner.init] at hu

/-- C8 (amended): the store itself does not enforce the field discipline —
a raw `update_task_status` call can set `result` and `error` together on a
Pending task (see the counterexample) — but under every sequence of the
driver-level operations (`create_task`, `plan_tasks`,
`complete_current_task`, `clear_completed_tasks`, with no raw
`update_task_status` call) every task in the store has `result` and
`error` mutually exclusive and both absent while Pending or InProgress. -/
theorem claim_C8 (ops : List Planner.PlannerOp) (t : Planner.Task)
    (ht : t ∈ (Planner.runOps ops).tasks) :
    ¬(t.result ≠ none ∧ t.error ≠ none) ∧
    ((t.status = Planner.TaskStatus.pending ∨ t.status = Planner.TaskStatus.inProgress) →
      t.result = none ∧ t.error = none) := by
  obtain ⟨herr, hres⟩ := fieldsInv_runOps ops t ht
  exact ⟨fun hcon => hcon.2 herr, fun h => ⟨hres h, herr⟩⟩

/-- C8 witness: the store after one creation contains the fresh Pending
task and it satisfies the field discipline. -/
theorem claim_C8_witness :
    (({ id := "task_1", description := "a" } : Planner.Task) ∈
      (Planner.runOps [Planner.PlannerOp.create "a" []]).tasks) ∧
    (¬(({ id := "task_1", description := "a" } : Planner.Task).result ≠ none ∧
        ({ id := "task_1", description := "a" } : Planner.Task).error ≠ none) ∧
      ((({ id := "task_1", description := "a" } : Planner.Task).status =
            Planner.TaskStatus.pending ∨
          ({ id := "task_1", description := "a" } : Planner.Task).status =
            Planner.TaskStatus.inProgress) →
        ({ id := "task_1", description := "a" } : Planner.Task).result = none ∧
          ({ id := "task_1", description := "a" } : Planner.Task).error = none)) := by
  have hm : ({ id := "task_1", description := "a" } : Planner.Task) ∈
      (Planner.runOps [Planner.PlannerOp.create "a" []]).tasks := by decide
  exact ⟨hm, claim_C8 [Planner.PlannerOp.create "a" []] _ hm⟩

/-! ## Next-pending selection: helper lemmas for `complete_current_task` -/

/-- Membership from an index lookup. -/
theorem mem_of_getElem?_eq {α : Type} (l : List α) (n : Nat) (a : α)
    (h : l[n]? = some a) : a ∈ l := by
  obtain ⟨hn, he⟩ := List.getElem?_eq_some.1 h
  exact he ▸ List.getElem_mem hn

/-- Lemma: `firstIdx` returns the index whose element matches when everything
before it does not. -/
theorem firstIdx_eq_some (f : Planner.Task → Bool) :
    ∀ (l : List Planner.Task) (i : Nat) (a : Planner.Task),
      l[i]? = some a → f a = true →
      (∀ j u, j < i → l[j]? = some u → f u = false) →
      Planner.firstIdx f l = some i := by
  intro l
  induction l with
  | nil =>
    intro i a ha
    simp at ha
  | cons x xs ih =>
    intro i a ha hfa hb
    cases i with
    | zero =>
      have hxa : x = a := by simpa using ha
      unfold Planner.firstIdx
      rw [if_pos (hxa ▸ hfa)]
    | succ n =>
      have hx : f x = false := hb 0 x (Nat.succ_pos n) (by simp)
      unfold Planner.firstIdx
      rw [if_neg (by simp [hx])]
      have hrec := ih n a (by simpa using ha) hfa
        (fun j u hj hu => hb (j + 1) u (by omega) (by simpa using hu))
      rw [hrec]
      rfl

/-- Lemma: `find?` characterized as the first matching element. -/
theorem find?_eq_some_first (f : Planner.Task → Bool) :
    ∀ (l : List Planner.Task) (a : Planner.Task),
      l.find? f = some a →
      ∃ j : Nat, l[j]? = some a ∧ f a = true ∧
        ∀ k u, k < j → l[k]? = some u → f u = false := by
  intro l
  induction l with
  | nil =>
    intro a ha
    simp at ha
  | cons x xs ih =>
    intro a ha
    by_cases hx : f x = true
    · rw [List.find?_cons_of_pos _ hx] at ha
      injection ha with ha
      subst ha
      exact ⟨0, by simp, hx, fun k u hk _ => absurd hk (Nat.not_lt_zero k)⟩
    · rw [List.find?_cons_of_neg _ hx] at ha
      obtain ⟨j, h1, h2, h3⟩ := ih a ha
      refine ⟨j + 1, by simpa using h1, h2, ?_⟩
      intro k u hk hu
      cases k with
      | zero =>
        have hxu : x = u := by simpa using hu
        rw [← hxu]
        simpa using hx
      | succ m =>
        exact h3 m u (by omega) (by simpa using hu)

/-- C2: when a current task exists (at position `i` of the store, with
store ids pairwise distinct, as the planner maintains), `complete_current_task`
marks exactly that task Completed with the given result, and returns —
and makes current — the Pending task at the smallest creation position
strictly after `i`; when no later Pending task exists it returns `none`
and clears the current pointer. -/
theorem claim_C2 (p : Planner.TaskPlanner) (r : Option String) (cid : String)
    (i : Nat) (t : Planner.Task)
    (hcur : p.currentTaskId = some cid)
    (hnodup : (p.tasks.map Planner.Task.id).Nodup)
    (hit : p.tasks[i]? = some t) (hid : t.id = cid) :
    C2Prop p r i := by
  have hi : i < p.tasks.length := (List.getElem?_eq_some.1 hit).1
  have hmem : t ∈ p.tasks := mem_of_getElem?_eq _ i t hit
  have hany : p.tasks.any (fun u => decide (u.id = cid)) = true :=
    List.any_eq_true.2 ⟨t, hmem, by simp [hid]⟩
  have hkey : ∀ k u, k ≠ i → p.tasks[k]? = some u → u.id ≠ cid := by
    intro k u hk hku hcontra
    have hmi : (p.tasks.map Planner.Task.id)[i]? = some cid := by
      rw [List.getElem?_map, hit]
      simp [hid]
    have hmk : (p.tasks.map Planner.Task.id)[k]? = some cid := by
      rw [List.getElem?_map, hku]
      simp [hcontra]
    have hik : i = k :=
      List.getElem?_inj (by simpa using hi) hnodup (hmi.trans hmk.symm)
    exact hk hik.symm
  have hupd : (p.updateTaskStatus cid Planner.TaskStatus.completed r none).2 =
      ⟨p.tasks.map (fun u => if decide (u.id = cid) then { u with status := Planner.TaskStatus.completed, result := r, error := none } else u), p.currentTaskId⟩ := by
    unfold Planner.TaskPlanner.updateTaskStatus
    rw [if_pos hany]
  have hl'i : (p.tasks.map (fun u => if decide (u.id = cid) then { u with status := Planner.TaskStatus.completed, result := r, error := none } else u))[i]? =
      some { t with status := Planner.TaskStatus.completed, result := r, error := none } := by
    rw [List.getElem?_map, hit]
    simp [hid]
  have hl'k : ∀ k, k ≠ i →
      (p.tasks.map (fun u => if decide (u.id = cid) then { u with status := Planner.TaskStatus.completed, result := r, error := none } else u))[k]? = p.tasks[k]? := by
    intro k hk
    rw [List.getElem?_map]
    cases hku : p.tasks[k]? with
    | none => rfl
    | some u =>
      have hune : u.id ≠ cid := hkey k u hk hku
      simp [hune]
  have hfidx : Planner.firstIdx (fun u => decide (u.id = cid))
      (p.tasks.map (fun u => if decide (u.id = cid) then { u with status := Planner.TaskStatus.completed, result := r, error := none } else u)) = some i := by
    apply firstIdx_eq_some _ _ i ({ t with status := Planner.TaskStatus.completed, result := r, error := none }) hl'i (by simp [hid])
    intro j u hj hu
    rw [hl'k j (Nat.ne_of_lt hj)] at hu
    simpa using hkey j u (Nat.ne_of_lt hj) hu
  have htn : ((i : Int) + 1).toNat = i + 1 := by omega
  have hcc : p.completeCurrentTask r =
      (((p.tasks.map (fun u => if decide (u.id = cid) then { u with status := Planner.TaskStatus.completed, result := r, error := none } else u)).drop (i + 1)).find? (fun u => decide (u.status = Planner.TaskStatus.pending)),
       ⟨p.tasks.map (fun u => if decide (u.id = cid) then { u with status := Planner.TaskStatus.completed, result := r, error := none } else u),
        (((p.tasks.map (fun u => if decide (u.id = cid) then { u with status := Planner.TaskStatus.completed, result := r, error := none } else u)).drop (i + 1)).find? (fun u => decide (u.status = Planner.TaskStatus.pending))).map (fun u => u.id)⟩) := by
    unfold Planner.TaskPlanner.completeCurrentTask
    rw [hcur]
    simp only [hupd, hfidx, htn]
  unfold C2Prop
  rw [hcc]
  refine ⟨?_, ?_, ?_, ?_⟩
  · intro t' ht'
    rw [hit] at ht'
    injection ht' with ht'
    subst ht'
    exact hl'i
  · intro k hk
    exact hl'k k hk
  · simp
  · cases hfind : ((p.tasks.map (fun u => if decide (u.id = cid) then { u with status := Planner.TaskStatus.completed, result := r, error := none } else u)).drop (i + 1)).find? (fun u => decide (u.status = Planner.TaskStatus.pending)) with
    | none =>
      refine ⟨?_, by simp⟩
      intro k u hik hku
      have hkne : k ≠ i := by omega
      have hl'ku : (p.tasks.map (fun u => if decide (u.id = cid) then { u with status := Planner.TaskStatus.completed, result := r, error := none } else u))[k]? = some u := by
        rw [hl'k k hkne]
        exact hku
      have humem : u ∈ (p.tasks.map (fun u => if decide (u.id = cid) then { u with status := Planner.TaskStatus.completed, result := r, error := none } else u)).drop (i + 1) := by
        apply mem_of_getElem?_eq _ (k - (i + 1)) u
        rw [List.getElem?_drop]
        have he : i + 1 + (k - (i + 1)) = k := by omega
        rw [he]
        exact hl'ku
      have hnp := List.find?_eq_none.1 hfind u humem
      intro hpend
      exact hnp (by simp [hpend])
    | some nt =>
      obtain ⟨m, hm, hfnt, hbefore⟩ := find?_eq_some_first _ _ nt hfind
      have hjl : (p.tasks.map (fun u => if decide (u.id = cid) then { u with status := Planner.TaskStatus.completed, result := r, error := none } else u))[i + 1 + m]? = some nt := by
        rw [← List.getElem?_drop]
        exact hm
      refine ⟨i + 1 + m, by omega, ?_, ?_, ?_, by simp⟩
      · rw [← hl'k (i + 1 + m) (by omega)]
        exact hjl
      · simpa using hfnt
      · intro k u hik hkj hku
        have hkne : k ≠ i := by omega
        have hl'ku : (p.tasks.map (fun u => if decide (u.id = cid) then { u with status := Planner.TaskStatus.completed, result := r, error := none } else u))[k]? = some u := by
          rw [hl'k k hkne]
          exact hku
        have hdku : ((p.tasks.map (fun u => if decide (u.id = cid) then { u with status := Planner.TaskStatus.completed, result := r, error := none } else u)).drop (i + 1))[k - (i + 1)]? = some u := by
          rw [List.getElem?_drop]
          have he : i + 1 + (k - (i + 1)) = k := by omega
          rw [he]
          exact hl'ku
        have hfu := hbefore (k - (i + 1)) u (by omega) hdku
        intro hpend
        rw [hpend] at hfu
        simp at hfu

/-- C2 witness: a two-task store with the first task current — completion
rewrites task 1 and advances to task 2. -/
theorem claim_C2_witness :
    pTwo.currentTaskId = some "task_1" ∧
    (pTwo.tasks.map Planner.Task.id).Nodup ∧
    pTwo.tasks[0]? = some ({ id := "task_1", description := "a" } : Planner.Task) ∧
    ({ id := "task_1", description := "a" } : Planner.Task).id = "task_1" ∧
    C2Prop pTwo (some "ok") 0 := by
  refine ⟨rfl, by decide, by decide, rfl, ?_⟩
  exact claim_C2 pTwo (some "ok") "task_1" 0
    ({ id := "task_1", description := "a" } : Planner.Task) rfl (by decide) (by decide) rfl
